import Mathlib

/-!
# Verification of the custom-activity core (token cache, data-binding resolver, personalizer)

This file gives a shallow embedding of the core of the repository:

* `src/utils/journeyUtils.js` — `extractDataBindingValue`, `getInArgValue`,
  `personalizeText` (and its inner `searchInObject`);
* `src/services/mockService.js` / `src/services/sfmcService.js` — the
  token-cache / single-flight coordinator (`getMockServiceToken`,
  `getSfmcAccessToken`);
* `src/routes/activityRoutes.js` — the `/execute` handler's success/failure
  mapping.

JavaScript values carried by the decoded JSON payloads are modelled by the
inductive `JsVal` below (`undefined` is modelled as an absent `Option` result
of a lookup, `null` as `JsVal.null`).  JavaScript strings are processed at the
character-list level so that the string manipulations of the source
(`startsWith`, `endsWith`, `slice`, `split`, `trim`, the `%%...%%` scan of
`String.prototype.replace`) become provable list operations.  Machine time
(`Date.now()`, milliseconds) is modelled as `Int`; the `NaN` that arises in
`sfmcService.js` when `expires_in` is absent is modelled by `JsNum.nan`.

Exotic JavaScript property accesses that cannot occur on decoded JSON data
(string index/`length` properties, array `length`, prototype members) are
outside the modelled fragment: member access on scalars yields `undefined`
(`none`), and arrays expose only their canonical numeric indices.
-/

/-- A JSON-ish JavaScript value, as produced by decoding the signed activity
payload.  Object fields are kept in insertion order, matching the `for ... in`
iteration order the source relies on. -/
inductive JsVal where
  | null : JsVal
  | bool (b : Bool) : JsVal
  | num (n : Int) : JsVal
  | str (s : String) : JsVal
  | arr (xs : List JsVal) : JsVal
  | obj (fields : List (String × JsVal)) : JsVal

/-- Is the value the JS `null` literal?  (Used where the source compares a
result against `null` with `!==`.) -/
def isNullJs : JsVal → Bool
  | .null => true
  | _ => false

/-- JavaScript truthiness of a modelled value (`if (v)`).  Integers model JS
numbers, so `0` is the only falsy number in the fragment. -/
def jsTruthy : JsVal → Bool
  | .null => false
  | .bool b => b
  | .num n => n != 0
  | .str s => s != ""
  | .arr _ => true
  | .obj _ => true

/-- First binding of a key in an object's field list (JS property lookup is
case-sensitive). -/
def lookupField : List (String × JsVal) → String → Option JsVal
  | [], _ => none
  | (k, v) :: rest, f => if k = f then some v else lookupField rest f

/-- Array property lookup: only canonical numeric indices are modelled
(`a["0"]` but not `a["00"]`; `length` is outside the modelled fragment). -/
def arrLookup (xs : List JsVal) (f : String) : Option JsVal :=
  match f.toNat? with
  | some i => if toString i = f then xs.get? i else none
  | none => none

/-- JS member access `v[f]`: `none` models `undefined`. -/
def getField : JsVal → String → Option JsVal
  | .obj fs, f => lookupField fs f
  | .arr xs, f => arrLookup xs f
  | _, _ => none

/-- Is the value a JS object in the `typeof v === 'object' && v !== null`
sense (the guard `journeyUtils.js` uses before recursing)? -/
def isObjLike : JsVal → Bool
  | .arr _ => true
  | .obj _ => true
  | _ => false

/-- The path walk of the primary strategy of `extractDataBindingValue`
(`journeyUtils.js` lines 64-73): starting from `data.Event`, for each
remaining segment `part`, if `currentObj` is truthy and `currentObj[part]`
is defined move into it, otherwise return `null`; after the last segment the
reached value is returned. -/
def walkPath : JsVal → List String → JsVal
  | cur, [] => cur
  | cur, p :: ps =>
    if jsTruthy cur then
      match getField cur p with
      | some v => walkPath v ps
      | none => JsVal.null
    else JsVal.null

/-- Specification-level strict path lookup: the chain of member accesses,
`some` exactly when every segment is present. -/
def pathLookup : JsVal → List String → Option JsVal
  | cur, [] => some cur
  | cur, p :: ps =>
    match getField cur p with
    | some v => pathLookup v ps
    | none => none

mutual

/-- The recursive fallback search of `extractDataBindingValue`
(`journeyUtils.js` lines 84-95, `searchInObject`): non-objects yield `null`;
if the node itself has the key (case-sensitively) its value is returned;
otherwise the children are visited in iteration order, recursing only into
object-like children, and a non-`null` recursive result is returned as soon
as one is found. -/
def searchInObject : JsVal → String → JsVal
  | .obj fs, f =>
    (match lookupField fs f with
     | some x => x
     | none => searchFields fs f)
  | .arr xs, f =>
    (match arrLookup xs f with
     | some x => x
     | none => searchElems xs f)
  | _, _ => JsVal.null

/-- The `for (const key in obj)` loop of `searchInObject` over an object's
fields. -/
def searchFields : List (String × JsVal) → String → JsVal
  | [], _ => JsVal.null
  | (_, v) :: rest, f =>
    if isObjLike v then
      (match searchInObject v f with
       | .null => searchFields rest f
       | r => r)
    else searchFields rest f

/-- The `for (const key in obj)` loop of `searchInObject` over an array's
elements. -/
def searchElems : List JsVal → String → JsVal
  | [], _ => JsVal.null
  | v :: rest, f =>
    if isObjLike v then
      (match searchInObject v f with
       | .null => searchElems rest f
       | r => r)
    else searchElems rest f

end

mutual

/-- The values the pruned depth-first traversal of `searchInObject` visits for
a key, in visit order: a node holding the key contributes exactly its value,
otherwise the object-like children are enumerated in iteration order. -/
def matchList : JsVal → String → List JsVal
  | .obj fs, f =>
    (match lookupField fs f with
     | some x => [x]
     | none => matchFields fs f)
  | .arr xs, f =>
    (match arrLookup xs f with
     | some x => [x]
     | none => matchElems xs f)
  | _, _ => []

/-- `matchList` over an object's field list. -/
def matchFields : List (String × JsVal) → String → List JsVal
  | [], _ => []
  | (_, v) :: rest, f =>
    (if isObjLike v then matchList v f else []) ++ matchFields rest f

/-- `matchList` over an array's elements. -/
def matchElems : List JsVal → String → List JsVal
  | [], _ => []
  | v :: rest, f =>
    (if isObjLike v then matchList v f else []) ++ matchElems rest f

end

mutual

/-- Does the key occur (case-sensitively, via `getField`) anywhere in the
value, descending into every object-like child? -/
def hasKey : JsVal → String → Bool
  | .obj fs, f => (lookupField fs f).isSome || hasKeyFields fs f
  | .arr xs, f => (arrLookup xs f).isSome || hasKeyElems xs f
  | _, _ => false

/-- `hasKey` over an object's field list. -/
def hasKeyFields : List (String × JsVal) → String → Bool
  | [], _ => false
  | (_, v) :: rest, f => hasKey v f || hasKeyFields rest f

/-- `hasKey` over an array's elements. -/
def hasKeyElems : List JsVal → String → Bool
  | [], _ => false
  | v :: rest, f => hasKey v f || hasKeyElems rest f

end

/-- JS whitespace for `String.prototype.trim` (ASCII fragment: space, tab,
newline, carriage return, vertical tab, form feed). -/
def jsWs (c : Char) : Bool :=
  c = ' ' || c = '\t' || c = '\n' || c = '\r' || c = Char.ofNat 11 || c = Char.ofNat 12

/-- `String.prototype.trim` on the character list. -/
def trimChars (cs : List Char) : List Char :=
  ((cs.dropWhile jsWs).reverse.dropWhile jsWs).reverse

/-- `String.prototype.split` with a one-character separator. -/
def splitOnChar (c : Char) : List Char → List (List Char)
  | [] => [[]]
  | a :: rest =>
    let r := splitOnChar c rest
    if a = c then [] :: r
    else (a :: r.headD []) :: r.tail

/-- `binding.startsWith('{{')`. -/
def startsWithBraces (cs : List Char) : Bool :=
  match cs with
  | c1 :: c2 :: _ => c1 = '{' && c2 = '{'
  | _ => false

/-- `binding.endsWith('}}')`. -/
def endsWithBraces (cs : List Char) : Bool :=
  match cs.reverse with
  | c1 :: c2 :: _ => c1 = '}' && c2 = '}'
  | _ => false

/-- `extractDataBindingValue` on the characters of a string binding
(`journeyUtils.js` lines 48-106): blank bindings give `null`; a `{{...}}`
binding whose dot-path starts with `Event` and has at least two segments is
resolved by the strict walk when `data.Event` is truthy and by the fallback
deep search on the last segment otherwise; a `{{...}}` binding failing the
`Event`-path test falls through to the final `return null`; any other
non-blank string is returned verbatim. -/
def extractStr (cs : List Char) (data : JsVal) : JsVal :=
  if trimChars cs = [] then JsVal.null
  else if startsWithBraces cs && endsWithBraces cs then
    match (splitOnChar '.' ((cs.drop 2).dropLast.dropLast)).map (fun l => String.mk l) with
    | p0 :: p1 :: rest =>
      if p0 = "Event" then
        match getField data "Event" with
        | some ev =>
          if jsTruthy ev then walkPath ev (p1 :: rest)
          else searchInObject data ((p1 :: rest).getLastD "")
        | none => searchInObject data ((p1 :: rest).getLastD "")
      else JsVal.null
    | _ => JsVal.null
  else JsVal.str (String.mk cs)

/-- `extractDataBindingValue(binding, data)`: non-strings are falsy or fail
the `typeof binding !== 'string'` test and give `null`; strings are handled
by `extractStr`. -/
def extractDataBindingValue (binding : JsVal) (data : JsVal) : JsVal :=
  match binding with
  | .str s => extractStr s.data data
  | _ => JsVal.null

/-- `getInArgValue(inArgs, fieldName)` (`journeyUtils.js` lines 117-125):
`null` unless `inArgs` is a non-empty array, else the field of its first
element (an absent field's `undefined` is conflated with `null`, which is how
every caller in the repository consumes it). -/
def getInArgValue (inArgs : JsVal) (fieldName : String) : JsVal :=
  match inArgs with
  | .arr (a :: _) => (getField a fieldName).getD JsVal.null
  | _ => JsVal.null

mutual

/-- JS `String(v)` coercion, as applied by `String.prototype.replace` to the
callback's return value. -/
def jsToString : JsVal → String
  | .null => "null"
  | .bool b => cond b "true" "false"
  | .num n => toString n
  | .str s => s
  | .arr xs => arrToString xs
  | .obj _ => "[object Object]"

/-- `Array.prototype.toString`: elements joined by commas, `null` elements
printing as empty. -/
def arrToString : List JsVal → String
  | [] => ""
  | [x] =>
    (match x with
     | .null => ""
     | v => jsToString v)
  | x :: rest =>
    (match x with
     | .null => ""
     | v => jsToString v) ++ "," ++ arrToString rest

end

/-- Find the first closing `%%` for the lazy group `(.*?)` of the regex
`/%%(.*?)%%/g`: scanning the characters after an opening `%%`, return the
inner text (which may not contain a newline, since `.` does not match one)
and the characters after the closing pair, or `none` when no closing pair is
reachable. -/
def findClose : List Char → Option (List Char × List Char)
  | [] => none
  | [_] => none
  | c1 :: c2 :: rest =>
    if c1 = '%' && c2 = '%' then some ([], rest)
    else if c1 = '\n' then none
    else (findClose (c2 :: rest)).map (fun p => (c1 :: p.1, p.2))

theorem findClose_sound :
    ∀ cs p, findClose cs = some p → cs = p.1 ++ '%' :: '%' :: p.2 := by
  intro cs
  induction cs with
  | nil => intro p h; simp [findClose] at h
  | cons c1 tl ih =>
    intro p h
    match tl with
    | [] => simp [findClose] at h
    | c2 :: rest =>
      rw [findClose] at h
      by_cases h1 : c1 = '%' && c2 = '%'
      · rw [if_pos h1] at h
        cases h
        simp at h1
        simp [h1.1, h1.2]
      · rw [if_neg h1] at h
        by_cases h2 : c1 = '\n'
        · simp [h2] at h
        · rw [if_neg h2] at h
          match hf : findClose (c2 :: rest) with
          | none => rw [hf] at h; simp at h
          | some q =>
            rw [hf] at h
            simp at h
            have := ih q hf
            rw [← h]
            simp [this]

theorem findClose_length {cs : List Char} {p : List Char × List Char}
    (h : findClose cs = some p) : p.2.length + 2 ≤ cs.length := by
  have := findClose_sound cs p h
  subst this
  simp

/-- The scan performed by `text.replace(/%%(.*?)%%/g, cb)`, parameterized by
the callback's resolution function `repl` on the captured field name: at each
opening `%%` with a reachable closing pair, the whole placeholder is replaced
by `String(repl inner)` unless `repl inner` is `null`, in which case the
original placeholder text is kept; scanning resumes after the closing pair.
(When no closing pair is reachable the regex cannot match at this position
nor at the next one, so the scan may safely resume two characters later.) -/
def replaceScan (repl : List Char → JsVal) : List Char → List Char
  | [] => []
  | [c] => [c]
  | c1 :: c2 :: rest =>
    if c1 = '%' && c2 = '%' then
      match h : findClose rest with
      | some (inn, after) =>
        (match repl inn with
         | .null => '%' :: '%' :: (inn ++ '%' :: '%' :: [])
         | v => (jsToString v).data) ++ replaceScan repl after
      | none => '%' :: '%' :: replaceScan repl rest
    else c1 :: replaceScan repl (c2 :: rest)
termination_by cs => cs.length
decreasing_by
  · have := findClose_length h
    simp at this ⊢
    omega
  · simp only [List.length_cons]
    omega
  · simp only [List.length_cons]
    omega

/-- The characters of the faux binding `` `{{Event.DE.${fieldNameToFind}}}` ``
that `personalizeText` hands to `extractDataBindingValue`. -/
def fakeBindingChars (f : List Char) : List Char :=
  '{' :: '{' :: 'E' :: 'v' :: 'e' :: 'n' :: 't' :: '.' :: 'D' :: 'E' :: '.' :: (f ++ ['}', '}'])

/-- `personalizeText(text, dataContext)` (`journeyUtils.js` lines 137-158):
falsy or non-string templates are returned unchanged; otherwise every
`%%field%%` placeholder is resolved through `extractDataBindingValue` on the
faux binding `{{Event.DE.<field.trim()>}}`, keeping the placeholder when the
resolution is `null`. -/
def personalizeText (text : JsVal) (dataContext : JsVal) : JsVal :=
  match text with
  | .str s =>
    if s = "" then JsVal.str s
    else JsVal.str (String.mk
      (replaceScan (fun f => extractStr (fakeBindingChars (trimChars f)) dataContext) s.data))
  | other => other

/-- A JS number as used for the token-expiry timestamps: an integer (ms since
epoch) or `NaN` (which arises in `sfmcService.js` when `expires_in` is absent,
since `Date.now() + undefined * 1000` is `NaN`). -/
inductive JsNum where
  | int (n : Int) : JsNum
  | nan : JsNum
deriving DecidableEq

/-- `now < e - 60000` where `e` is the stored `tokenExpiresAt` (possibly
`null`, which JS coerces to `0`, or `NaN`, for which every comparison is
false). -/
def freshAgainstExpiry (now : Int) : Option JsNum → Bool
  | some (.int e) => now < e - 60000
  | some .nan => false
  | none => now < 0 - 60000

/-- The module-level cache of one token coordinator: `cachedToken`,
`tokenExpiresAt` and the in-flight `tokenPromise` (identified by the fetch's
sequence number).  `mockService.js` lines 17-21 and `sfmcService.js` lines
13-15 declare exactly these three variables. -/
structure TokenCache where
  cachedToken : Option String
  tokenExpiresAt : Option JsNum
  tokenPromise : Option Nat
deriving DecidableEq

/-- Case 1 of `getMockServiceToken`/`getSfmcAccessToken`: the token served
from cache, if any (`cachedToken && Date.now() < tokenExpiresAt - 60000`). -/
def usableToken (now : Int) (s : TokenCache) : Option String :=
  match s.cachedToken with
  | some tok => if tok ≠ "" && freshAgainstExpiry now s.tokenExpiresAt then some tok else none
  | none => none

/-- What one `acquireToken()` call does synchronously (the bodies of
`getMockServiceToken` and `getSfmcAccessToken` are textually identical here):
serve the cache, join the pending promise, or start a new fetch.  The body
has no `await` before the promise is recorded, so under the single-threaded
event loop it runs atomically. -/
inductive AcquireRes where
  | cached (tok : String) : AcquireRes
  | joined (pid : Nat) : AcquireRes
  | started (pid : Nat) : AcquireRes
deriving DecidableEq

/-- The synchronous step of `acquireToken()`; `fresh` is the identity the new
fetch promise would get. -/
def acquireStep (now : Int) (s : TokenCache) (fresh : Nat) : TokenCache × AcquireRes :=
  match usableToken now s with
  | some tok => (s, .cached tok)
  | none =>
    match s.tokenPromise with
    | some pid => (s, .joined pid)
    | none => ({ s with tokenPromise := some fresh }, .started fresh)

/-- The body the token endpoint answers with, as consumed by the services:
`response.data` (absent models a falsy/absent body) with optional
`access_token` and `expires_in` fields. -/
structure TokenData where
  access_token : Option String
  expires_in : Option Int
deriving DecidableEq

/-- Outcome of the `axios.post` to a token endpoint: a rejection (network
failure, or for SFMC also missing environment configuration, both of which
reach the same `catch`) or a resolved response. -/
inductive FetchOutcome where
  | failure : FetchOutcome
  | response (body : Option TokenData) : FetchOutcome
deriving DecidableEq

/-- What a waiter of the token promise observes. -/
inductive TokenResult where
  | ok (tok : String) : TokenResult
  | err : TokenResult
deriving DecidableEq

/-- Completion of the fetch promise of `getMockServiceToken`
(`mockService.js` lines 52-82): the response must have a truthy
`access_token` and a truthy `expires_in`, else the promise rejects; on
success the cache is updated with expiry `now + expires_in * 1000` and the
promise resolves with the token; the `finally` always clears
`tokenPromise`. -/
def mockComplete (now : Int) (s : TokenCache) (out : FetchOutcome) : TokenCache × TokenResult :=
  match out with
  | .failure => ({ s with tokenPromise := none }, .err)
  | .response none => ({ s with tokenPromise := none }, .err)
  | .response (some d) =>
    match d.access_token, d.expires_in with
    | some tok, some e =>
      if tok ≠ "" && e ≠ 0 then
        ({ cachedToken := some tok,
           tokenExpiresAt := some (.int (now + e * 1000)),
           tokenPromise := none }, .ok tok)
      else ({ s with tokenPromise := none }, .err)
    | _, _ => ({ s with tokenPromise := none }, .err)

/-- Completion of the fetch promise of `getSfmcAccessToken`
(`sfmcService.js` lines 40-83): only `access_token` is validated; the expiry
is `now + expires_in * 1000`, which is `NaN` when `expires_in` is absent; the
`finally` always clears `tokenPromise`. -/
def sfmcComplete (now : Int) (s : TokenCache) (out : FetchOutcome) : TokenCache × TokenResult :=
  match out with
  | .failure => ({ s with tokenPromise := none }, .err)
  | .response none => ({ s with tokenPromise := none }, .err)
  | .response (some d) =>
    match d.access_token with
    | some tok =>
      if tok ≠ "" then
        ({ cachedToken := some tok,
           tokenExpiresAt := some (match d.expires_in with
             | some e => JsNum.int (now + e * 1000)
             | none => JsNum.nan),
           tokenPromise := none }, .ok tok)
      else ({ s with tokenPromise := none }, .err)
    | none => ({ s with tokenPromise := none }, .err)

/-- The two coordinator instances of the system. -/
inductive Service where
  | mock : Service
  | sfmc : Service
deriving DecidableEq

/-- Dispatch to the service's completion logic. -/
def completeFetch : Service → Int → TokenCache → FetchOutcome → TokenCache × TokenResult
  | .mock => mockComplete
  | .sfmc => sfmcComplete

/-- The observable state of one coordinator under the event loop: its cache,
how many fetches were ever started (also used as the next fetch identity),
the identities of fetches currently outstanding, which caller awaits which
promise, and the results the callers have received. -/
structure SysState where
  cache : TokenCache
  fetchesStarted : Nat
  outstanding : List Nat
  waiting : List (Nat × Nat)
  results : List (Nat × TokenResult)
deriving DecidableEq

/-- An event-loop job touching the coordinator: a caller running
`acquireToken()` at a given time, or the fetch with a given identity settling
with a given outcome. -/
inductive Ev where
  | acquire (caller : Nat) (now : Int) : Ev
  | complete (pid : Nat) (now : Int) (out : FetchOutcome) : Ev

/-- One event-loop job.  `acquire` runs the synchronous body of
`acquireToken()`; `complete` runs the promise executor's continuation:
the cache update (or `catch`) and the `finally`, then delivers the settled
value to every caller awaiting that promise.  A `complete` for a fetch that
is not outstanding cannot occur and is a no-op. -/
def stepSys (svc : Service) (s : SysState) (e : Ev) : SysState :=
  match e with
  | .acquire c now =>
    match acquireStep now s.cache s.fetchesStarted with
    | (_, .cached tok) => { s with results := (c, .ok tok) :: s.results }
    | (_, .joined pid) => { s with waiting := (c, pid) :: s.waiting }
    | (cache', .started pid) =>
      { s with cache := cache', fetchesStarted := s.fetchesStarted + 1,
               outstanding := pid :: s.outstanding, waiting := (c, pid) :: s.waiting }
  | .complete pid now out =>
    if pid ∈ s.outstanding then
      match completeFetch svc now s.cache out with
      | (cache', res) =>
        { cache := cache', fetchesStarted := s.fetchesStarted,
          outstanding := s.outstanding.erase pid,
          waiting := s.waiting.filter (fun w => w.2 ≠ pid),
          results := (s.waiting.filter (fun w => w.2 = pid)).map (fun w => (w.1, res)) ++ s.results }
    else s

/-- Run a list of event-loop jobs. -/
def runSys (svc : Service) (s : SysState) (evs : List Ev) : SysState :=
  evs.foldl (stepSys svc) s

/-- The coordinator as the process starts: empty cache, no fetch ever
started, nobody waiting. -/
def initSys : SysState :=
  { cache := { cachedToken := none, tokenExpiresAt := none, tokenPromise := none },
    fetchesStarted := 0, outstanding := [], waiting := [], results := [] }

/-- The coupling between the module-level `tokenPromise` variable and the
fetches actually outstanding: the promise slot holds exactly the outstanding
fetch, if any. -/
def promiseMatches (s : SysState) : Prop :=
  match s.cache.tokenPromise with
  | some p => s.outstanding = [p]
  | none => s.outstanding = []

theorem completeFetch_clears (svc : Service) (now : Int) (s : TokenCache) (out : FetchOutcome) :
    (completeFetch svc now s out).1.tokenPromise = none := by
  cases svc <;> cases out with
  | failure => simp [completeFetch, mockComplete, sfmcComplete]
  | response b =>
    cases b with
    | none => simp [completeFetch, mockComplete, sfmcComplete]
    | some d =>
      simp only [completeFetch, mockComplete, sfmcComplete]
      rcases d with ⟨tokOpt, expOpt⟩
      cases tokOpt <;> cases expOpt <;> simp <;> split <;> simp

theorem stepSys_promiseMatches (svc : Service) (s : SysState) (e : Ev)
    (h : promiseMatches s) : promiseMatches (stepSys svc s e) := by
  cases e with
  | acquire c now =>
    simp only [stepSys]
    rcases hstep : acquireStep now s.cache s.fetchesStarted with ⟨cache', r⟩
    unfold acquireStep at hstep
    rcases husable : usableToken now s.cache with _ | tok
    · rw [husable] at hstep
      rcases hp : s.cache.tokenPromise with _ | pid
      · rw [hp] at hstep
        cases hstep
        unfold promiseMatches at h ⊢
        rw [hp] at h
        simp [h]
      · rw [hp] at hstep
        cases hstep
        unfold promiseMatches at h ⊢
        simpa using h
    · rw [husable] at hstep
      cases hstep
      unfold promiseMatches at h ⊢
      simpa using h
  | complete pid now out =>
    simp only [stepSys]
    by_cases hmem : pid ∈ s.outstanding
    · rw [if_pos hmem]
      rcases hc : completeFetch svc now s.cache out with ⟨cache', res⟩
      unfold promiseMatches at h ⊢
      simp only
      have hclear : cache'.tokenPromise = none := by
        have := completeFetch_clears svc now s.cache out
        rw [hc] at this
        exact this
      rw [hclear]
      rcases hp : s.cache.tokenPromise with _ | q
      · rw [hp] at h
        simp [h] at hmem
      · rw [hp] at h
        rw [h] at hmem ⊢
        simp at hmem
        simp [hmem]
    · rw [if_neg hmem]
      exact h

theorem runSys_promiseMatches (svc : Service) (evs : List Ev) :
    ∀ s : SysState, promiseMatches s → promiseMatches (runSys svc s evs) := by
  induction evs with
  | nil => intro s h; exact h
  | cons e rest ih =>
    intro s h
    exact ih (stepSys svc s e) (stepSys_promiseMatches svc s e h)

/-- `usableToken` never reads the promise slot. -/
theorem usableToken_promise_irrel (t : Int) (ct : Option String) (exp : Option JsNum)
    (p q : Option Nat) :
    usableToken t ⟨ct, exp, p⟩ = usableToken t ⟨ct, exp, q⟩ := rfl

/-- A coordinator state before a burst: some cache content, no fetch in
flight, nobody waiting. -/
def restState (ct : Option String) (exp : Option JsNum) (fs : Nat)
    (rs : List (Nat × TokenResult)) : SysState :=
  { cache := { cachedToken := ct, tokenExpiresAt := exp, tokenPromise := none },
    fetchesStarted := fs, outstanding := [], waiting := [], results := rs }

/-- The N simultaneous `acquireToken()` calls followed by the settling of the
single fetch they share. -/
def burstTrace (N : Nat) (t : Int) (pid : Nat) (t2 : Int) (out : FetchOutcome) : List Ev :=
  (List.range N).map (fun c => Ev.acquire c t) ++ [Ev.complete pid t2 out]

theorem joiners_lemma (svc : Service) (t : Int) (ct : Option String) (exp : Option JsNum)
    (q n : Nat) (outs : List Nat) (rs : List (Nat × TokenResult))
    (husable : usableToken t ⟨ct, exp, some q⟩ = none) :
    ∀ (cs : List Nat) (w : List (Nat × Nat)),
      runSys svc ⟨⟨ct, exp, some q⟩, n, outs, w, rs⟩ (cs.map (fun c => Ev.acquire c t)) =
        ⟨⟨ct, exp, some q⟩, n, outs, (cs.reverse.map (fun c => (c, q))) ++ w, rs⟩ := by
  intro cs
  induction cs with
  | nil => intro w; simp [runSys]
  | cons c rest ih =>
    intro w
    simp only [List.map_cons, runSys, List.foldl_cons]
    have hstep : stepSys svc ⟨⟨ct, exp, some q⟩, n, outs, w, rs⟩ (Ev.acquire c t) =
        ⟨⟨ct, exp, some q⟩, n, outs, (c, q) :: w, rs⟩ := by
      simp [stepSys, acquireStep, husable]
    rw [hstep]
    have := ih ((c, q) :: w)
    simp only [runSys] at this
    rw [this]
    simp

theorem completeFetch_ok (svc : Service) (t2 : Int) (s : TokenCache)
    (tok : String) (e : Int) (htok : tok ≠ "") (he : e ≠ 0) :
    completeFetch svc t2 s (.response (some ⟨some tok, some e⟩)) =
      ({ cachedToken := some tok, tokenExpiresAt := some (.int (t2 + e * 1000)),
         tokenPromise := none }, .ok tok) := by
  cases svc <;> simp [completeFetch, mockComplete, sfmcComplete, htok, he]

theorem burst_scenario (svc : Service) (n : Nat) (t t2 : Int) (ct : Option String)
    (exp : Option JsNum) (fs : Nat) (rs : List (Nat × TokenResult)) (tok : String) (e : Int)
    (htok : tok ≠ "") (he : e ≠ 0)
    (husable : usableToken t ⟨ct, exp, none⟩ = none) :
    (runSys svc (restState ct exp fs rs)
        (burstTrace (n + 1) t fs t2 (.response (some ⟨some tok, some e⟩)))).fetchesStarted
      = fs + 1 ∧
    ∀ c < n + 1, (c, TokenResult.ok tok) ∈
      (runSys svc (restState ct exp fs rs)
        (burstTrace (n + 1) t fs t2 (.response (some ⟨some tok, some e⟩)))).results := by
  have hfold : ∀ (s : SysState) (l1 l2 : List Ev),
      runSys svc s (l1 ++ l2) = runSys svc (runSys svc s l1) l2 := by
    intro s l1 l2; simp [runSys]
  have hrange : (List.range (n + 1)).map (fun c => Ev.acquire c t) =
      Ev.acquire 0 t :: ((List.range n).map Nat.succ).map (fun c => Ev.acquire c t) := by
    rw [List.range_succ_eq_map]
    simp
  have hstep1 : stepSys svc (restState ct exp fs rs) (Ev.acquire 0 t) =
      ⟨⟨ct, exp, some fs⟩, fs + 1, [fs], [(0, fs)], rs⟩ := by
    simp [stepSys, restState, acquireStep, husable]
  have husable2 : usableToken t ⟨ct, exp, some fs⟩ = none := by
    rw [usableToken_promise_irrel t ct exp (some fs) none]
    exact husable
  have hburst := joiners_lemma svc t ct exp fs (fs + 1) [fs] rs husable2
      ((List.range n).map Nat.succ) [(0, fs)]
  have hrun1 : runSys svc (restState ct exp fs rs)
      ((List.range (n + 1)).map (fun c => Ev.acquire c t)) =
      ⟨⟨ct, exp, some fs⟩, fs + 1, [fs],
        (((List.range n).map Nat.succ).reverse.map (fun c => (c, fs))) ++ [(0, fs)], rs⟩ := by
    rw [hrange]
    simp only [runSys, List.foldl_cons]
    rw [hstep1]
    simpa [runSys] using hburst
  set W : List (Nat × Nat) :=
    (((List.range n).map Nat.succ).reverse.map (fun c => (c, fs))) ++ [(0, fs)] with hW
  have hWall : ∀ w ∈ W, w.2 = fs := by
    intro w hw
    rw [hW] at hw
    rcases List.mem_append.mp hw with h1 | h2
    · rcases List.mem_map.mp h1 with ⟨c, _, rfl⟩
      rfl
    · simp at h2
      rw [h2]
  have hfinal : runSys svc (restState ct exp fs rs)
      (burstTrace (n + 1) t fs t2 (.response (some ⟨some tok, some e⟩))) =
      { cache := { cachedToken := some tok, tokenExpiresAt := some (.int (t2 + e * 1000)),
                   tokenPromise := none },
        fetchesStarted := fs + 1,
        outstanding := [],
        waiting := W.filter (fun w => w.2 ≠ fs),
        results := (W.filter (fun w => w.2 = fs)).map (fun w => (w.1, TokenResult.ok tok)) ++ rs } := by
    unfold burstTrace
    rw [hfold, hrun1]
    simp only [runSys, List.foldl_cons, List.foldl_nil]
    simp only [stepSys, List.mem_singleton, if_pos rfl]
    rw [completeFetch_ok svc t2 _ tok e htok he]
    simp
  refine ⟨by rw [hfinal], ?_⟩
  intro c hc
  rw [hfinal]
  simp only [List.mem_append]
  left
  refine List.mem_map.mpr ⟨(c, fs), ?_, rfl⟩
  refine List.mem_filter.mpr ⟨?_, by simp⟩
  rw [hW]
  rcases c with _ | i
  · simp
  · refine List.mem_append.mp ?_ |>.elim (fun h => List.mem_append.mpr (Or.inl h))
      (fun h => List.mem_append.mpr (Or.inr h))
    refine List.mem_append.mpr (Or.inl ?_)
    refine List.mem_map.mpr ⟨i + 1, ?_, rfl⟩
    simp
    omega

/-- C1 — Single-flight coalescing: for each token-cache coordinator (mock and
SFMC), (a) along every event trace from process start at most one token fetch
is outstanding at any instant, and (b) whenever N ≥ 2 concurrent
`acquireToken()` calls run while no usable cached token exists and no fetch
is in flight, exactly one fetch is started and, once it settles successfully,
every one of the N callers receives the same token value. -/
theorem c1_single_flight_coalescing :
    (∀ (svc : Service) (evs : List Ev),
      (runSys svc initSys evs).outstanding.length ≤ 1) ∧
    (∀ (svc : Service) (N : Nat), 2 ≤ N →
      ∀ (t t2 : Int) (ct : Option String) (exp : Option JsNum) (fs : Nat)
        (rs : List (Nat × TokenResult)) (tok : String) (e : Int),
        tok ≠ "" → e ≠ 0 → usableToken t ⟨ct, exp, none⟩ = none →
        (runSys svc (restState ct exp fs rs)
            (burstTrace N t fs t2 (.response (some ⟨some tok, some e⟩)))).fetchesStarted
          = fs + 1 ∧
        ∀ c < N, (c, TokenResult.ok tok) ∈
          (runSys svc (restState ct exp fs rs)
            (burstTrace N t fs t2 (.response (some ⟨some tok, some e⟩)))).results) := by
  constructor
  · intro svc evs
    have hinit : promiseMatches initSys := by
      unfold promiseMatches initSys
      simp
    have h := runSys_promiseMatches svc evs initSys hinit
    unfold promiseMatches at h
    rcases hp : (runSys svc initSys evs).cache.tokenPromise with _ | p
    · rw [hp] at h
      simp [h]
    · rw [hp] at h
      simp [h]
  · intro svc N hN t t2 ct exp fs rs tok e htok he husable
    rcases N with _ | n
    · omega
    · exact burst_scenario svc n t t2 ct exp fs rs tok e htok he husable

/-- Witness for `c1_single_flight_coalescing` at a concrete trace: two
simultaneous callers, one fetch, both callers obtain the fetched token. -/
theorem c1_single_flight_coalescing_witness :
    (runSys Service.mock initSys []).outstanding.length ≤ 1 ∧
    ((runSys Service.mock (restState none none 0 [])
        (burstTrace 2 0 0 5 (.response (some ⟨some "T", some 3600⟩)))).fetchesStarted = 1 ∧
      ∀ c < 2, (c, TokenResult.ok "T") ∈
        (runSys Service.mock (restState none none 0 [])
          (burstTrace 2 0 0 5 (.response (some ⟨some "T", some 3600⟩)))).results) :=
  ⟨c1_single_flight_coalescing.1 Service.mock [],
   c1_single_flight_coalescing.2 Service.mock 2 (by decide) 0 5 none none 0 [] "T" 3600
     (by decide) (by decide) (by decide)⟩

/-- C2 — Token freshness window: (a) with a (non-empty) cached token and an
integer stored expiry `e` (ms), `acquireToken()` serves the cache with no
fetch exactly when `now < e - 60000`; (b) with no cached token the cache is
never served; (c) a successful mock fetch stores expiry
`fetchTime + expires_in * 1000`, and when `expires_in ≤ 60` seconds the token
is never served afterwards: the next call (at any `t ≥ fetchTime`) starts a
new fetch. -/
theorem c2_token_freshness :
    (∀ (s : TokenCache) (now : Int) (fresh : Nat) (tok : String) (e : Int),
      s.cachedToken = some tok → tok ≠ "" → s.tokenExpiresAt = some (.int e) →
      ((acquireStep now s fresh).2 = .cached tok ↔ now < e - 60000)) ∧
    (∀ (s : TokenCache) (now : Int) (fresh : Nat) (tok : String),
      s.cachedToken = none → (acquireStep now s fresh).2 ≠ .cached tok) ∧
    (∀ (s : TokenCache) (now t : Int) (fresh : Nat) (tok : String) (e : Int),
      tok ≠ "" → e ≠ 0 → e ≤ 60 → now ≤ t →
      (mockComplete now s (.response (some ⟨some tok, some e⟩))).1.tokenExpiresAt
        = some (.int (now + e * 1000)) ∧
      (acquireStep t (mockComplete now s (.response (some ⟨some tok, some e⟩))).1 fresh).2
        = .started fresh) := by
  refine ⟨?_, ?_, ?_⟩
  · intro s now fresh tok e hct htok hexp
    unfold acquireStep usableToken
    rw [hct, hexp]
    by_cases hlt : now < e - 60000
    · simp [freshAgainstExpiry, htok, hlt]
    · simp only [freshAgainstExpiry, htok]
      simp only [decide_eq_true_eq] at *
      rw [if_neg (by simp [hlt])]
      rcases s.tokenPromise with _ | p <;> simp <;> omega
  · intro s now fresh tok hct
    unfold acquireStep usableToken
    rw [hct]
    rcases s.tokenPromise with _ | p <;> simp
  · intro s now t fresh tok e htok he hle hnt
    have hstate : (mockComplete now s (.response (some ⟨some tok, some e⟩))).1 =
        { cachedToken := some tok, tokenExpiresAt := some (.int (now + e * 1000)),
          tokenPromise := none } := by
      simp [mockComplete, htok, he]
    rw [hstate]
    refine ⟨rfl, ?_⟩
    unfold acquireStep usableToken
    have hfresh : freshAgainstExpiry t (some (.int (now + e * 1000))) = false := by
      unfold freshAgainstExpiry
      simp only [decide_eq_false_iff_not]
      omega
    simp [hfresh]

/-- Witness for `c2_token_freshness` at concrete states: a token expiring at
100000 ms is served at time 0 and only then; an empty cache is never served;
a fetch at time 0 with `expires_in = 60` stores expiry 60000 and the next
call at time 0 starts a fresh fetch. -/
theorem c2_token_freshness_witness :
    ((acquireStep 0 ⟨some "T", some (.int 100000), none⟩ 0).2 = .cached "T" ↔
      (0 : Int) < 100000 - 60000) ∧
    ((acquireStep 0 ⟨none, some (.int 100000), none⟩ 0).2 ≠ .cached "T") ∧
    ((mockComplete 0 ⟨none, none, some 0⟩ (.response (some ⟨some "T", some 60⟩))).1.tokenExpiresAt
      = some (.int (0 + 60 * 1000)) ∧
     (acquireStep 0 (mockComplete 0 ⟨none, none, some 0⟩
        (.response (some ⟨some "T", some 60⟩))).1 1).2 = .started 1) :=
  ⟨c2_token_freshness.1 ⟨some "T", some (.int 100000), none⟩ 0 0 "T" 100000 rfl
      (by decide) rfl,
   c2_token_freshness.2.1 ⟨none, some (.int 100000), none⟩ 0 0 "T" rfl,
   c2_token_freshness.2.2 ⟨none, none, some 0⟩ 0 0 1 "T" 60 (by decide) (by decide)
      (by decide) (by decide)⟩

/-- C7 — Token-fetch failure contract, evaluated at the failing input: a
SFMC token response `{access_token: "T"}` with no `expires_in` field is a
malformed response per the contract, yet `getSfmcAccessToken` caches the
token (with a `NaN` expiry) and resolves its waiters successfully instead of
rejecting; the `NaN` expiry also means the cached token can never be served
fresh afterwards.  (`mockService.js` validates both fields; `sfmcService.js`,
despite its comment that it follows the same pattern, validates only
`access_token`.) -/
theorem c7_sfmc_missing_expiry_is_cached :
    sfmcComplete 0 ⟨none, none, some 0⟩ (.response (some ⟨some "T", none⟩)) =
      ({ cachedToken := some "T", tokenExpiresAt := some JsNum.nan, tokenPromise := none },
        TokenResult.ok "T") ∧
    mockComplete 0 ⟨none, none, some 0⟩ (.response (some ⟨some "T", none⟩)) =
      ({ cachedToken := none, tokenExpiresAt := none, tokenPromise := none },
        TokenResult.err) ∧
    usableToken 5 ⟨some "T", some JsNum.nan, none⟩ = none := by
  decide

/-- An axios-style response of the push endpoint: HTTP status and body. -/
structure PushResp where
  status : Nat
  body : JsVal

/-- Outcome of `sendPush(pushPayload)` as observed by the `/execute` handler:
either a resolved response, or a thrown/rejected error (token-acquisition
failure, network failure, or axios's default throw on a non-2xx status) with
`error.message` and the optional `error.response.status`. -/
inductive PushCall where
  | ok (r : PushResp) : PushCall
  | thrown (msg : String) (respStatus : Option Nat) : PushCall

/-- The structured error body the `/execute` catch block returns
(`activityRoutes.js` lines 133-140); `details.statusCode` is omitted when the
error carries no response (JSON serialization drops `undefined`). -/
def execErrorBody (msg : String) (st : Option Nat) : JsVal :=
  .obj [("status", .str "error"),
        ("message", .str "Fallo al enviar los datos al servicio de push."),
        ("details", .obj (("errorMessage", .str msg) ::
          (match st with
           | some n => [("statusCode", .num n)]
           | none => [])))]

/-- The payload assembly of the `/execute` handler (`activityRoutes.js` lines
71-105): read the configuration from `inArguments`, resolve the three data
bindings, personalize the template message falling back to the `message`
binding, and build the push payload. -/
def assemblePushPayload (activityPayload : JsVal) : JsVal :=
  let inArgs := match getField activityPayload "inArguments" with
    | some v => if jsTruthy v then v else JsVal.arr []
    | none => JsVal.arr []
  let customText := getInArgValue inArgs "customText"
  let selectedTemplate := getInArgValue inArgs "selectedTemplate"
  let templateMessage := getInArgValue inArgs "selectedTemplateMessage"
  let deFieldBinding := getInArgValue inArgs "selectedDEField"
  let phoneBinding := getInArgValue inArgs "phone"
  let messageBinding := getInArgValue inArgs "message"
  let deFieldValue := extractDataBindingValue deFieldBinding activityPayload
  let phone := extractDataBindingValue phoneBinding activityPayload
  let message := extractDataBindingValue messageBinding activityPayload
  let personalized := personalizeText templateMessage activityPayload
  let messageToSend := if jsTruthy personalized then personalized else message
  .obj [("contactKey", (getField activityPayload "keyValue").getD JsVal.null),
        ("dataFromActivity",
          .obj [("customText", customText),
                ("selectedTemplate", selectedTemplate),
                ("deFieldValue", deFieldValue),
                ("phone", phone),
                ("message", messageToSend)])]

/-- The `/execute` handler (`activityRoutes.js` lines 66-142) after JWT
verification, with the push client as a collaborator: a 2xx response becomes
`200 {status:"ok", result}`; a resolved non-2xx response trips the explicit
`throw`, and every thrown error is caught and mapped to
`500 {status:"error", message, details}`. -/
def executeHandler (activityPayload : JsVal) (push : JsVal → PushCall) : Nat × JsVal :=
  match push (assemblePushPayload activityPayload) with
  | .ok r =>
    if 200 ≤ r.status ∧ r.status < 300 then
      (200, .obj [("status", .str "ok"), ("result", r.body)])
    else
      (500, execErrorBody
        ("El servicio push respondió con un estado inesperado: " ++ toString r.status) none)
  | .thrown msg st => (500, execErrorBody msg st)

/-- C8 — Orchestrator failure mapping: the `/execute` handler always answers
`200 {status:"ok",...}` or `500 {status:"error", message, details}` (no
exception propagates); any thrown error from token acquisition or the HTTP
call maps to the structured 500 body; and a non-2xx push response — in
particular an HTTP 500 — also maps to the structured 500 body instead of a
throw. -/
theorem c8_execute_failure_mapping :
    (∀ (payload : JsVal) (push : JsVal → PushCall),
      ((executeHandler payload push).1 = 200 ∧
        getField (executeHandler payload push).2 "status" = some (.str "ok")) ∨
      ((executeHandler payload push).1 = 500 ∧
        getField (executeHandler payload push).2 "status" = some (.str "error") ∧
        (getField (executeHandler payload push).2 "message").isSome ∧
        (getField (executeHandler payload push).2 "details").isSome)) ∧
    (∀ (payload : JsVal) (push : JsVal → PushCall) (msg : String) (st : Option Nat),
      push (assemblePushPayload payload) = .thrown msg st →
      executeHandler payload push = (500, execErrorBody msg st)) ∧
    (∀ (payload : JsVal) (push : JsVal → PushCall) (r : PushResp),
      push (assemblePushPayload payload) = .ok r →
      ¬(200 ≤ r.status ∧ r.status < 300) →
      (executeHandler payload push).1 = 500 ∧
      getField (executeHandler payload push).2 "status" = some (.str "error") ∧
      (getField (executeHandler payload push).2 "message").isSome ∧
      (getField (executeHandler payload push).2 "details").isSome) := by
  refine ⟨?_, ?_, ?_⟩
  · intro payload push
    unfold executeHandler
    cases hp : push (assemblePushPayload payload) with
    | ok r =>
      by_cases h2 : 200 ≤ r.status ∧ r.status < 300
      · left
        simp [h2, getField, lookupField]
      · right
        simp [h2, execErrorBody, getField, lookupField]
    | thrown msg st =>
      right
      simp [execErrorBody, getField, lookupField]
  · intro payload push msg st hp
    unfold executeHandler
    rw [hp]
  · intro payload push r hp h2
    unfold executeHandler
    rw [hp]
    simp [h2, execErrorBody, getField, lookupField]

/-- Witness for `c8_execute_failure_mapping`: a push client that throws with
an upstream 500, and one that resolves with status 500, both at the empty
payload. -/
theorem c8_execute_failure_mapping_witness :
    (((executeHandler (.obj []) (fun _ => .thrown "boom" (some 500))).1 = 200 ∧
        getField (executeHandler (.obj []) (fun _ => .thrown "boom" (some 500))).2 "status"
          = some (.str "ok")) ∨
      ((executeHandler (.obj []) (fun _ => .thrown "boom" (some 500))).1 = 500 ∧
        getField (executeHandler (.obj []) (fun _ => .thrown "boom" (some 500))).2 "status"
          = some (.str "error") ∧
        (getField (executeHandler (.obj []) (fun _ => .thrown "boom" (some 500))).2 "message").isSome ∧
        (getField (executeHandler (.obj []) (fun _ => .thrown "boom" (some 500))).2 "details").isSome)) ∧
    executeHandler (.obj []) (fun _ => .thrown "boom" (some 500))
      = (500, execErrorBody "boom" (some 500)) ∧
    ((executeHandler (.obj []) (fun _ => .ok ⟨500, .null⟩)).1 = 500 ∧
      getField (executeHandler (.obj []) (fun _ => .ok ⟨500, .null⟩)).2 "status"
        = some (.str "error") ∧
      (getField (executeHandler (.obj []) (fun _ => .ok ⟨500, .null⟩)).2 "message").isSome ∧
      (getField (executeHandler (.obj []) (fun _ => .ok ⟨500, .null⟩)).2 "details").isSome) :=
  ⟨c8_execute_failure_mapping.1 (.obj []) (fun _ => .thrown "boom" (some 500)),
   c8_execute_failure_mapping.2.1 (.obj []) (fun _ => .thrown "boom" (some 500)) "boom"
     (some 500) rfl,
   c8_execute_failure_mapping.2.2 (.obj []) (fun _ => .ok ⟨500, .null⟩) ⟨500, .null⟩ rfl
     (by simp)⟩

theorem trimChars_ne_nil_of_braces {cs : List Char} (h : startsWithBraces cs = true) :
    trimChars cs ≠ [] := by
  rcases cs with _ | ⟨a, _ | ⟨b, rest⟩⟩
  · simp [startsWithBraces] at h
  · simp [startsWithBraces] at h
  · unfold startsWithBraces at h
    simp only [Bool.and_eq_true, decide_eq_true_eq] at h
    obtain ⟨ha, hb⟩ := h
    subst ha
    subst hb
    unfold trimChars
    intro hcontra
    rw [List.reverse_eq_nil_iff, List.dropWhile_eq_nil_iff] at hcontra
    have hmem : '{' ∈ ('{' :: '{' :: rest).dropWhile jsWs := by
      rw [show ('{' :: '{' :: rest).dropWhile jsWs = '{' :: '{' :: rest from rfl]
      exact List.mem_cons_self _ _
    have := hcontra '{' (List.mem_reverse.mpr hmem)
    simp [jsWs] at this

/-- C9 — Literal and blank bindings: `extractDataBindingValue` returns `null`
for every non-string binding and for every string that trims to empty, and
returns the binding unchanged for every non-blank string that does not have
both the leading `{{` and the trailing `}}`.  (The function reads its inputs
only; the embedding is a pure function, matching the no-side-effects
clause.) -/
theorem c9_literal_and_blank_bindings :
    (∀ (b : JsVal) (data : JsVal), (∀ s, b ≠ JsVal.str s) →
      extractDataBindingValue b data = .null) ∧
    (∀ (s : String) (data : JsVal), trimChars s.data = [] →
      extractDataBindingValue (.str s) data = .null) ∧
    (∀ (s : String) (data : JsVal), trimChars s.data ≠ [] →
      ¬(startsWithBraces s.data = true ∧ endsWithBraces s.data = true) →
      extractDataBindingValue (.str s) data = .str s) := by
  refine ⟨?_, ?_, ?_⟩
  · intro b data h
    cases b with
    | str s => exact absurd rfl (h s)
    | null => rfl
    | bool x => rfl
    | num x => rfl
    | arr x => rfl
    | obj x => rfl
  · intro s data h
    simp [extractDataBindingValue, extractStr, h]
  · intro s data h1 h2
    show extractStr s.data data = JsVal.str s
    unfold extractStr
    rw [if_neg h1]
    have hb : (startsWithBraces s.data && endsWithBraces s.data) = false := by
      rcases hx : startsWithBraces s.data <;> rcases hy : endsWithBraces s.data <;>
        simp_all
    rw [hb]
    simp

/-- Witness for `c9_literal_and_blank_bindings`: a number binding, a
whitespace binding and the plain-text binding "hello". -/
theorem c9_literal_and_blank_bindings_witness :
    extractDataBindingValue (.num 5) (.obj []) = .null ∧
    extractDataBindingValue (.str "  ") (.obj []) = .null ∧
    extractDataBindingValue (.str "hello") (.obj []) = .str "hello" :=
  ⟨c9_literal_and_blank_bindings.1 (.num 5) (.obj []) (fun s h => JsVal.noConfusion h),
   c9_literal_and_blank_bindings.2.1 "  " (.obj []) (by decide),
   c9_literal_and_blank_bindings.2.2 "hello" (.obj []) (by decide) (by decide)⟩

/-- C10 — A `{{...}}` binding whose inner dot-path is not `Event` followed by
at least one more segment resolves to `null`: it is neither resolved against
the payload nor returned as a literal. -/
theorem c10_braced_non_event_binding_null :
    ∀ (s : String) (data : JsVal),
      startsWithBraces s.data = true → endsWithBraces s.data = true →
      (∀ p1 rest,
        (splitOnChar '.' ((s.data.drop 2).dropLast.dropLast)).map (fun l => String.mk l)
          ≠ "Event" :: p1 :: rest) →
      extractDataBindingValue (.str s) data = .null := by
  intro s data h1 h2 hshape
  show extractStr s.data data = JsVal.null
  unfold extractStr
  rw [if_neg (trimChars_ne_nil_of_braces h1)]
  rw [h1, h2]
  rw [if_pos (show (true && true) = true from rfl)]
  rcases hparts : (splitOnChar '.' ((s.data.drop 2).dropLast.dropLast)).map
      (fun l => String.mk l) with _ | ⟨p0, _ | ⟨p1, rest⟩⟩
  · rfl
  · rfl
  · have hp0 : p0 ≠ "Event" := by
      intro hcontra
      exact hshape p1 rest (by rw [hparts, hcontra])
    simp [hp0]

/-- Witness for `c10_braced_non_event_binding_null`: the binding
`{{Contact.Key}}` resolves to `null` even when the payload has that path. -/
theorem c10_braced_non_event_binding_null_witness :
    extractDataBindingValue (.str "{{Contact.Key}}")
      (.obj [("Contact", .obj [("Key", .str "ck")])]) = .null :=
  c10_braced_non_event_binding_null "{{Contact.Key}}"
    (.obj [("Contact", .obj [("Key", .str "ck")])]) (by decide) (by decide)
    (by
      intro p1 rest h
      have hval : (splitOnChar '.'
            ((("{{Contact.Key}}".data).drop 2).dropLast.dropLast)).map
            (fun l => String.mk l) = ["Contact", "Key"] := by decide
      rw [hval] at h
      simp at h)

theorem match_null_elim (x alt : JsVal) :
    (match x with | .null => alt | r => r) = if isNullJs x then alt else x := by
  cases x <;> simp [isNullJs]

theorem find?_nonNull_of_getD_null {l : List JsVal}
    (h : ((l.find? (fun x => !(isNullJs x))).getD JsVal.null) = JsVal.null) :
    l.find? (fun x => !(isNullJs x)) = none := by
  cases hf : l.find? (fun x => !(isNullJs x)) with
  | none => rfl
  | some y =>
    have hp := List.find?_some hf
    rw [hf] at h
    simp only [Option.getD_some] at h
    rw [h] at hp
    simp [isNullJs] at hp

theorem find?_nonNull_of_getD_nonNull {l : List JsVal} {x : JsVal}
    (h : ((l.find? (fun x => !(isNullJs x))).getD JsVal.null) = x)
    (hx : isNullJs x = false) :
    l.find? (fun x => !(isNullJs x)) = some x := by
  cases hf : l.find? (fun x => !(isNullJs x)) with
  | none =>
    rw [hf] at h
    simp only [Option.getD_none] at h
    rw [← h] at hx
    simp [isNullJs] at hx
  | some y =>
    rw [hf] at h
    simp only [Option.getD_some] at h
    rw [h]

theorem eq_null_of_isNullJs {x : JsVal} (h : isNullJs x = true) : x = JsVal.null := by
  cases x <;> simp [isNullJs] at h ⊢

theorem search_matchList_aux (n : Nat) :
    (∀ (v : JsVal), sizeOf v ≤ n → ∀ f,
      searchInObject v f = ((matchList v f).find? (fun x => !(isNullJs x))).getD JsVal.null) ∧
    (∀ (fs : List (String × JsVal)), sizeOf fs ≤ n → ∀ f,
      searchFields fs f = ((matchFields fs f).find? (fun x => !(isNullJs x))).getD JsVal.null) ∧
    (∀ (xs : List JsVal), sizeOf xs ≤ n → ∀ f,
      searchElems xs f = ((matchElems xs f).find? (fun x => !(isNullJs x))).getD JsVal.null) := by
  induction n with
  | zero =>
    refine ⟨?_, ?_, ?_⟩
    · intro v hv; exfalso; cases v <;> simp at hv
    · intro fs hfs; exfalso; cases fs <;> simp at hfs
    · intro xs hxs; exfalso; cases xs <;> simp at hxs
  | succ n ih =>
    obtain ⟨ihv, ihf, ihe⟩ := ih
    refine ⟨?_, ?_, ?_⟩
    · intro v hv f
      cases v with
      | null => simp [searchInObject, matchList]
      | bool b => simp [searchInObject, matchList]
      | num m => simp [searchInObject, matchList]
      | str s => simp [searchInObject, matchList]
      | obj fs =>
        simp only [searchInObject, matchList]
        cases hl : lookupField fs f with
        | some x => cases x <;> simp [isNullJs]
        | none =>
          apply ihf
          simp at hv
          omega
      | arr xs =>
        simp only [searchInObject, matchList]
        cases hl : arrLookup xs f with
        | some x => cases x <;> simp [isNullJs]
        | none =>
          apply ihe
          simp at hv
          omega
    · intro fs hfs f
      cases fs with
      | nil => simp [searchFields, matchFields]
      | cons kv rest =>
        obtain ⟨k, v⟩ := kv
        have hsv : sizeOf v ≤ n := by simp at hfs; omega
        have hsr : sizeOf rest ≤ n := by simp at hfs; omega
        simp only [searchFields, matchFields]
        by_cases ho : isObjLike v = true
        · rw [if_pos ho, if_pos ho, match_null_elim, List.find?_append]
          have hv := ihv v hsv f
          by_cases hnull : isNullJs (searchInObject v f) = true
          · rw [if_pos hnull]
            have hfind := find?_nonNull_of_getD_null (l := matchList v f) (by
              rw [← hv]
              exact eq_null_of_isNullJs hnull)
            rw [hfind]
            simpa using ihf rest hsr f
          · rw [if_neg hnull]
            have hfind := find?_nonNull_of_getD_nonNull (l := matchList v f)
              (x := searchInObject v f) hv.symm (by simpa using hnull)
            rw [hfind]
            simp
        · rw [if_neg ho, if_neg ho]
          simpa using ihf rest hsr f
    · intro xs hxs f
      cases xs with
      | nil => simp [searchElems, matchElems]
      | cons v rest =>
        have hsv : sizeOf v ≤ n := by simp at hxs; omega
        have hsr : sizeOf rest ≤ n := by simp at hxs; omega
        simp only [searchElems, matchElems]
        by_cases ho : isObjLike v = true
        · rw [if_pos ho, if_pos ho, match_null_elim, List.find?_append]
          have hv := ihv v hsv f
          by_cases hnull : isNullJs (searchInObject v f) = true
          · rw [if_pos hnull]
            have hfind := find?_nonNull_of_getD_null (l := matchList v f) (by
              rw [← hv]
              exact eq_null_of_isNullJs hnull)
            rw [hfind]
            simpa using ihe rest hsr f
          · rw [if_neg hnull]
            have hfind := find?_nonNull_of_getD_nonNull (l := matchList v f)
              (x := searchInObject v f) hv.symm (by simpa using hnull)
            rw [hfind]
            simp
        · rw [if_neg ho, if_neg ho]
          simpa using ihe rest hsr f

theorem searchInObject_eq_matchList (v : JsVal) (f : String) :
    searchInObject v f = ((matchList v f).find? (fun x => !(isNullJs x))).getD JsVal.null :=
  (search_matchList_aux (sizeOf v)).1 v (Nat.le_refl _) f

theorem matchList_nil_aux (n : Nat) :
    (∀ (v : JsVal), sizeOf v ≤ n → ∀ f, hasKey v f = false → matchList v f = []) ∧
    (∀ (fs : List (String × JsVal)), sizeOf fs ≤ n → ∀ f,
      hasKeyFields fs f = false → matchFields fs f = []) ∧
    (∀ (xs : List JsVal), sizeOf xs ≤ n → ∀ f,
      hasKeyElems xs f = false → matchElems xs f = []) := by
  induction n with
  | zero =>
    refine ⟨?_, ?_, ?_⟩
    · intro v hv; exfalso; cases v <;> simp at hv
    · intro fs hfs; exfalso; cases fs <;> simp at hfs
    · intro xs hxs; exfalso; cases xs <;> simp at hxs
  | succ n ih =>
    obtain ⟨ihv, ihf, ihe⟩ := ih
    refine ⟨?_, ?_, ?_⟩
    · intro v hv f hk
      cases v with
      | null => simp [matchList]
      | bool b => simp [matchList]
      | num m => simp [matchList]
      | str s => simp [matchList]
      | obj fs =>
        rw [hasKey] at hk
        simp only [Bool.or_eq_false_iff] at hk
        cases hl : lookupField fs f with
        | some x => rw [hl] at hk; simp at hk
        | none =>
          simp only [matchList, hl]
          apply ihf _ (by simp at hv; omega) _ hk.2
      | arr xs =>
        rw [hasKey] at hk
        simp only [Bool.or_eq_false_iff] at hk
        cases hl : arrLookup xs f with
        | some x => rw [hl] at hk; simp at hk
        | none =>
          simp only [matchList, hl]
          apply ihe _ (by simp at hv; omega) _ hk.2
    · intro fs hfs f hk
      cases fs with
      | nil => simp [matchFields]
      | cons kv rest =>
        obtain ⟨k, v⟩ := kv
        rw [hasKeyFields] at hk
        simp only [Bool.or_eq_false_iff] at hk
        simp only [matchFields]
        rw [ihf rest (by simp at hfs; omega) f hk.2, List.append_nil]
        by_cases ho : isObjLike v = true
        · rw [if_pos ho]
          exact ihv v (by simp at hfs; omega) f hk.1
        · rw [if_neg ho]
    · intro xs hxs f hk
      cases xs with
      | nil => simp [matchElems]
      | cons v rest =>
        rw [hasKeyElems] at hk
        simp only [Bool.or_eq_false_iff] at hk
        simp only [matchElems]
        rw [ihe rest (by simp at hxs; omega) f hk.2, List.append_nil]
        by_cases ho : isObjLike v = true
        · rw [if_pos ho]
          exact ihv v (by simp at hxs; omega) f hk.1
        · rw [if_neg ho]

theorem matchList_nil_of_not_hasKey (v : JsVal) (f : String) (h : hasKey v f = false) :
    matchList v f = [] :=
  (matchList_nil_aux (sizeOf v)).1 v (Nat.le_refl _) f h

theorem searchInObject_null_of_not_hasKey (v : JsVal) (f : String)
    (h : hasKey v f = false) : searchInObject v f = JsVal.null := by
  rw [searchInObject_eq_matchList, matchList_nil_of_not_hasKey v f h]
  rfl

theorem walkPath_eq_pathLookup : ∀ (ps : List String) (cur : JsVal),
    walkPath cur ps = (pathLookup cur ps).getD JsVal.null := by
  intro ps
  induction ps with
  | nil => intro cur; rfl
  | cons p rest ih =>
    intro cur
    rw [walkPath, pathLookup]
    by_cases ht : jsTruthy cur = true
    · rw [if_pos ht]
      cases hg : getField cur p with
      | some v => exact ih v
      | none => rfl
    · rw [if_neg ht]
      have hg : getField cur p = none := by
        cases cur <;> simp_all [jsTruthy, getField]
      rw [hg]
      rfl

theorem extract_event_truthy (s : String) (data : JsVal) (p1 : String) (rest : List String)
    (ev : JsVal) (h1 : startsWithBraces s.data = true) (h2 : endsWithBraces s.data = true)
    (hp : (splitOnChar '.' ((s.data.drop 2).dropLast.dropLast)).map (fun l => String.mk l)
      = "Event" :: p1 :: rest)
    (hev : getField data "Event" = some ev) (ht : jsTruthy ev = true) :
    extractDataBindingValue (.str s) data = walkPath ev (p1 :: rest) := by
  show extractStr s.data data = _
  unfold extractStr
  rw [if_neg (trimChars_ne_nil_of_braces h1), h1, h2,
    if_pos (show (true && true) = true from rfl), hp, hev]
  simp [ht]

theorem extract_event_absent (s : String) (data : JsVal) (p1 : String) (rest : List String)
    (h1 : startsWithBraces s.data = true) (h2 : endsWithBraces s.data = true)
    (hp : (splitOnChar '.' ((s.data.drop 2).dropLast.dropLast)).map (fun l => String.mk l)
      = "Event" :: p1 :: rest)
    (hev : getField data "Event" = none) :
    extractDataBindingValue (.str s) data = searchInObject data ((p1 :: rest).getLastD "") := by
  show extractStr s.data data = _
  unfold extractStr
  rw [if_neg (trimChars_ne_nil_of_braces h1), h1, h2,
    if_pos (show (true && true) = true from rfl), hp, hev]
  simp

/-- C3 — Counterexample to the claim as stated: in the payload
`{Event: 0, F: "x"}` the member `dataPayload.Event` exists (it is `0`), and
the strict walk of `{{Event.K.F}}` dies at the missing segment `K`, so the
claim demands `null`; but `0` is falsy, so the code takes the fallback deep
search and returns `"x"`. -/
theorem c3_counterexample :
    getField (.obj [("Event", .num 0), ("F", .str "x")]) "Event" = some (.num 0) ∧
    pathLookup (.num 0) ["K", "F"] = none ∧
    extractDataBindingValue (.str "{{Event.K.F}}")
      (.obj [("Event", .num 0), ("F", .str "x")]) = .str "x" := by
  refine ⟨by simp [getField, lookupField], by simp [pathLookup, getField], ?_⟩
  simp [extractDataBindingValue, extractStr, trimChars, splitOnChar, startsWithBraces,
    endsWithBraces, getField, lookupField, jsTruthy, searchInObject, searchFields,
    isObjLike, jsWs]

/-- C3 (amended) — Strict primary path resolution: for every binding
`{{Event.<p1>...[rest]}}` and every payload whose `Event` member exists *and
is truthy*, `resolve` walks the remaining segments strictly: if the full
member chain exists it returns exactly the reached value, and it returns
`null` as soon as a segment is missing, without invoking the fallback deep
search. -/
theorem c3_strict_primary_path (s : String) (data : JsVal) (p1 : String)
    (rest : List String) (ev : JsVal)
    (h1 : startsWithBraces s.data = true) (h2 : endsWithBraces s.data = true)
    (hp : (splitOnChar '.' ((s.data.drop 2).dropLast.dropLast)).map (fun l => String.mk l)
      = "Event" :: p1 :: rest)
    (hev : getField data "Event" = some ev) (ht : jsTruthy ev = true) :
    (∀ v, pathLookup ev (p1 :: rest) = some v →
      extractDataBindingValue (.str s) data = v) ∧
    (pathLookup ev (p1 :: rest) = none →
      extractDataBindingValue (.str s) data = JsVal.null) := by
  have hE := extract_event_truthy s data p1 rest ev h1 h2 hp hev ht
  constructor
  · intro v hv
    rw [hE, walkPath_eq_pathLookup, hv]
    rfl
  · intro hv
    rw [hE, walkPath_eq_pathLookup, hv]
    rfl

/-- Witness for `c3_strict_primary_path`: `{{Event.K.F}}` over
`{Event: {K: {F: "v"}}}` resolves to `"v"`. -/
theorem c3_strict_primary_path_witness :
    (∀ v, pathLookup (.obj [("K", .obj [("F", .str "v")])]) ["K", "F"] = some v →
      extractDataBindingValue (.str "{{Event.K.F}}")
        (.obj [("Event", .obj [("K", .obj [("F", .str "v")])])]) = v) ∧
    (pathLookup (.obj [("K", .obj [("F", .str "v")])]) ["K", "F"] = none →
      extractDataBindingValue (.str "{{Event.K.F}}")
        (.obj [("Event", .obj [("K", .obj [("F", .str "v")])])]) = JsVal.null) :=
  c3_strict_primary_path "{{Event.K.F}}"
    (.obj [("Event", .obj [("K", .obj [("F", .str "v")])])]) "K" ["F"]
    (.obj [("K", .obj [("F", .str "v")])])
    (by decide) (by decide) (by decide)
    (by simp [getField, lookupField]) (by simp [jsTruthy])

/-- C4 — Fallback deep search: (a) for every binding `{{Event....}}` (first
segment `Event`, at least two segments) and payload whose `Event` member is
absent, `resolve` returns the deep search of the whole payload on the *last*
path segment; (b) that search returns the first non-`null` value attached to
the searched key in the visit order of the pruned depth-first traversal
(`matchList`); (c) when no key of that name occurs anywhere in the payload,
the search returns `null`. -/
theorem c4_fallback_deep_search :
    (∀ (s : String) (data : JsVal) (p1 : String) (rest : List String),
      startsWithBraces s.data = true → endsWithBraces s.data = true →
      (splitOnChar '.' ((s.data.drop 2).dropLast.dropLast)).map (fun l => String.mk l)
        = "Event" :: p1 :: rest →
      getField data "Event" = none →
      extractDataBindingValue (.str s) data
        = searchInObject data ((p1 :: rest).getLastD "")) ∧
    (∀ (v : JsVal) (f : String),
      searchInObject v f = ((matchList v f).find? (fun x => !(isNullJs x))).getD JsVal.null) ∧
    (∀ (v : JsVal) (f : String), hasKey v f = false → searchInObject v f = JsVal.null) :=
  ⟨fun s data p1 rest h1 h2 hp hev => extract_event_absent s data p1 rest h1 h2 hp hev,
   searchInObject_eq_matchList,
   searchInObject_null_of_not_hasKey⟩

/-- Witness for `c4_fallback_deep_search`: `{{Event.K.F}}` over
`{a: {F: "x"}}` (no `Event`) falls back to the deep search on `F`, which
finds `"x"`; a payload without the key yields `null`. -/
theorem c4_fallback_deep_search_witness :
    (extractDataBindingValue (.str "{{Event.K.F}}") (.obj [("a", .obj [("F", .str "x")])])
      = searchInObject (.obj [("a", .obj [("F", .str "x")])]) ((["K", "F"]).getLastD "")) ∧
    (searchInObject (.obj [("a", .obj [("F", .str "x")])]) "F"
      = (((matchList (.obj [("a", .obj [("F", .str "x")])]) "F").find?
          (fun x => !(isNullJs x))).getD JsVal.null)) ∧
    (searchInObject (.obj [("b", .str "y")]) "F" = JsVal.null) :=
  ⟨c4_fallback_deep_search.1 "{{Event.K.F}}" (.obj [("a", .obj [("F", .str "x")])])
      "K" ["F"] (by decide) (by decide) (by decide) (by simp [getField, lookupField]),
   c4_fallback_deep_search.2.1 (.obj [("a", .obj [("F", .str "x")])]) "F",
   c4_fallback_deep_search.2.2 (.obj [("b", .str "y")]) "F"
      (by simp [hasKey, hasKeyFields, lookupField])⟩

/-- C6 — Counterexample to case-insensitive matching: the payload
`{phone: "x"}` holds the searched field name up to letter case only, yet the
fallback deep search returns `null` and personalization leaves `%%Phone%%`
untouched — key matching is case-sensitive. -/
theorem c6_counterexample :
    ("Phone" : String) ≠ "phone" ∧
    "Phone".data.map Char.toLower = "phone".data.map Char.toLower ∧
    searchInObject (.obj [("phone", .str "x")]) "Phone" = JsVal.null ∧
    personalizeText (.str "%%Phone%%") (.obj [("phone", .str "x")])
      = .str "%%Phone%%" := by
  refine ⟨by decide, by decide, ?_, ?_⟩
  · simp [searchInObject, searchFields, lookupField, isObjLike]
  · simp [personalizeText, replaceScan, findClose, fakeBindingChars, trimChars, extractStr,
      splitOnChar, startsWithBraces, endsWithBraces, getField, lookupField, jsTruthy,
      walkPath, jsToString, searchInObject, searchFields, isObjLike, jsWs]

/-- C6 (amended) — Field-name matching in the fallback deep search is
case-sensitive: a non-`null` result is always the value of a key *exactly*
equal to the searched field name somewhere in the payload (an occurrence in
the traversal's `matchList`), and when no exactly-equal key occurs the search
returns `null`; a key differing only in case is not found. -/
theorem c6_case_sensitive_matching (data : JsVal) (f : String) :
    (searchInObject data f ≠ JsVal.null → hasKey data f = true) ∧
    (∀ v, searchInObject data f = v → isNullJs v = false → v ∈ matchList data f) := by
  constructor
  · intro h
    cases hk : hasKey data f with
    | false => exact absurd (searchInObject_null_of_not_hasKey data f hk) h
    | true => rfl
  · intro v hv hnv
    have hchar := searchInObject_eq_matchList data f
    rw [hv] at hchar
    exact List.mem_of_find?_eq_some (find?_nonNull_of_getD_nonNull hchar.symm hnv)

/-- Witness for `c6_case_sensitive_matching`: in `{a: {Phone: "x"}}` the
search for `"Phone"` returns the non-`null` value `"x"`, so an exactly-equal
key occurs. -/
theorem c6_case_sensitive_matching_witness :
    (searchInObject (.obj [("a", .obj [("Phone", .str "x")])]) "Phone" ≠ JsVal.null →
      hasKey (.obj [("a", .obj [("Phone", .str "x")])]) "Phone" = true) ∧
    (∀ v, searchInObject (.obj [("a", .obj [("Phone", .str "x")])]) "Phone" = v →
      isNullJs v = false →
      v ∈ matchList (.obj [("a", .obj [("Phone", .str "x")])]) "Phone") :=
  c6_case_sensitive_matching (.obj [("a", .obj [("Phone", .str "x")])]) "Phone"

theorem splitOnChar_ne_nil (c : Char) (l : List Char) : splitOnChar c l ≠ [] := by
  cases l with
  | nil => simp [splitOnChar]
  | cons a rest =>
    rw [splitOnChar]
    by_cases h : a = c
    · simp [h]
    · simp [h]

theorem splitOnChar_append (c : Char) (ys : List Char) :
    ∀ xs : List Char, splitOnChar c (xs ++ c :: ys) = splitOnChar c xs ++ splitOnChar c ys := by
  intro xs
  induction xs with
  | nil => simp [splitOnChar]
  | cons a rest ih =>
    rw [List.cons_append, splitOnChar, splitOnChar, ih]
    by_cases h : a = c
    · simp [h]
    · simp only [h, if_false]
      rcases hs : splitOnChar c rest with _ | ⟨g, gs⟩
      · exact absurd hs (splitOnChar_ne_nil c rest)
      · simp

theorem getLastD_map (L : List (List Char)) :
    ∀ d : List Char,
      (L.map (fun l => String.mk l)).getLastD (String.mk d) = String.mk (L.getLastD d) := by
  induction L with
  | nil => intro d; rfl
  | cons x rest ih =>
    intro d
    rw [List.map_cons, List.getLastD_cons, List.getLastD_cons]
    exact ih x

theorem getLastD_irrel {α : Type} (l : List α) (hl : l ≠ []) (a b : α) :
    l.getLastD a = l.getLastD b := by
  cases l with
  | nil => exact absurd rfl hl
  | cons x rest => rw [List.getLastD_cons, List.getLastD_cons]

theorem dropLast_two_append (X : List Char) : (X ++ ['}', '}']).dropLast.dropLast = X := by
  rw [show X ++ ['}', '}'] = (X ++ ['}']) ++ ['}'] from by simp]
  rw [List.dropLast_concat, List.dropLast_concat]

theorem fakeBinding_slice (f : List Char) :
    (((fakeBindingChars f).drop 2).dropLast.dropLast)
      = 'E' :: 'v' :: 'e' :: 'n' :: 't' :: '.' :: 'D' :: 'E' :: '.' :: f := by
  show ('E' :: 'v' :: 'e' :: 'n' :: 't' :: '.' :: 'D' :: 'E' :: '.' :: (f ++ ['}', '}'])).dropLast.dropLast = _
  rw [show 'E' :: 'v' :: 'e' :: 'n' :: 't' :: '.' :: 'D' :: 'E' :: '.' :: (f ++ ['}', '}'])
      = ('E' :: 'v' :: 'e' :: 'n' :: 't' :: '.' :: 'D' :: 'E' :: '.' :: f) ++ ['}', '}'] from by simp]
  exact dropLast_two_append _

theorem fakeBinding_parts (f : List Char) :
    (splitOnChar '.' (((fakeBindingChars f).drop 2).dropLast.dropLast)).map
        (fun l => String.mk l)
      = "Event" :: "DE" :: (splitOnChar '.' f).map (fun l => String.mk l) := by
  rw [fakeBinding_slice]
  rw [show 'E' :: 'v' :: 'e' :: 'n' :: 't' :: '.' :: 'D' :: 'E' :: '.' :: f
      = ['E', 'v', 'e', 'n', 't'] ++ '.' :: (['D', 'E'] ++ '.' :: f) from by simp]
  rw [splitOnChar_append, splitOnChar_append]
  rw [show splitOnChar '.' ['E', 'v', 'e', 'n', 't'] = [['E', 'v', 'e', 'n', 't']] from by decide]
  rw [show splitOnChar '.' ['D', 'E'] = [['D', 'E']] from by decide]
  simp only [List.cons_append, List.nil_append, List.map_cons]

theorem fakeBinding_starts (f : List Char) : startsWithBraces (fakeBindingChars f) = true := rfl

theorem fakeBinding_ends (f : List Char) : endsWithBraces (fakeBindingChars f) = true := by
  unfold endsWithBraces
  rw [show (fakeBindingChars f).reverse
      = '}' :: '}' :: (f.reverse ++ ['.', 'E', 'D', '.', 't', 'n', 'e', 'v', 'E', '{', '{'])
      from by simp [fakeBindingChars]]
  rfl

theorem extract_fake_binding (data : JsVal) (hev : getField data "Event" = none)
    (f : List Char) :
    extractStr (fakeBindingChars f) data
      = searchInObject data (String.mk ((splitOnChar '.' f).getLastD [])) := by
  unfold extractStr
  rw [if_neg (trimChars_ne_nil_of_braces (fakeBinding_starts f)),
    fakeBinding_starts f, fakeBinding_ends f,
    if_pos (show (true && true) = true from rfl), fakeBinding_parts f, hev]
  simp only
  rw [List.getLastD_cons]
  rw [if_pos trivial]
  rw [show ("DE" : String) = String.mk ['D', 'E'] from by decide]
  rw [getLastD_map]
  rw [getLastD_irrel _ (splitOnChar_ne_nil '.' f) ['D', 'E'] []]

theorem replaceScan_congr (r1 r2 : List Char → JsVal) (h : ∀ f, r1 f = r2 f) :
    ∀ (n : Nat) (cs : List Char), cs.length ≤ n → replaceScan r1 cs = replaceScan r2 cs := by
  intro n
  induction n with
  | zero =>
    intro cs hcs
    rcases cs with _ | ⟨c, cs⟩
    · simp [replaceScan]
    · simp at hcs
  | succ n ih =>
    intro cs hcs
    rcases cs with _ | ⟨c1, _ | ⟨c2, rest⟩⟩
    · simp [replaceScan]
    · simp [replaceScan]
    · rw [replaceScan, replaceScan]
      by_cases hpc : (c1 = '%' && c2 = '%') = true
      · rw [if_pos hpc, if_pos hpc]
        cases hf : findClose rest with
        | some p =>
          obtain ⟨inn, after⟩ := p
          have hlen := findClose_length hf
          simp only at hlen
          simp only
          rw [h inn, ih after (by simp at hcs ⊢; omega)]
        | none =>
          simp only
          rw [ih rest (by simp at hcs; omega)]
      · rw [if_neg hpc, if_neg hpc]
        rw [ih (c2 :: rest) (by simp at hcs ⊢; omega)]

/-- Modelled from the amended specification: the personalizer whose
replacement for each `%%field%%` placeholder is the fallback deep search of
the payload on the last dot-segment of the trimmed field name, keeping the
placeholder when the search yields `null`. -/
def personalizeSpec (text : JsVal) (dataContext : JsVal) : JsVal :=
  match text with
  | .str s =>
    if s = "" then JsVal.str s
    else JsVal.str (String.mk (replaceScan
      (fun f => searchInObject dataContext
        (String.mk ((splitOnChar '.' (trimChars f)).getLastD []))) s.data))
  | other => other

/-- C5 — Counterexample to the claim as stated: over the payload
`{Event: {}, Name: "Ann"}` the fallback deep search for `Name` yields
`"Ann"`, so the claim demands `personalize("Hello %%Name%%") = "Hello Ann"`;
but the payload's `Event` member is truthy, so the faux binding
`{{Event.DE.Name}}` is resolved by the strict walk, which fails, and the
placeholder is left unchanged. -/
theorem c5_counterexample :
    searchInObject (.obj [("Event", .obj []), ("Name", .str "Ann")]) "Name" = .str "Ann" ∧
    personalizeText (.str "Hello %%Name%%")
      (.obj [("Event", .obj []), ("Name", .str "Ann")]) = .str "Hello %%Name%%" := by
  constructor
  · simp [searchInObject, searchFields, lookupField, isObjLike]
  · simp [personalizeText, replaceScan, findClose, fakeBindingChars, trimChars, extractStr,
      splitOnChar, startsWithBraces, endsWithBraces, getField, lookupField, jsTruthy,
      walkPath, jsToString, searchInObject, searchFields, isObjLike, jsWs]

/-- C5 (amended) — Personalizer contract: for every template text and every
payload whose `Event` member is absent, `personalize` equals the
specification-side personalizer: each `%%field%%` occurrence (non-greedy) is
replaced by the fallback deep-search value for the last dot-segment of the
trimmed field name, a placeholder whose search yields `null` is kept
verbatim (delimiters included), and no content outside placeholders is
altered — the scan never throws and never drops content.  (When the payload
has a truthy `Event` member the faux binding `{{Event.DE.<field>}}` is
resolved by the strict walk instead, per the counterexample.) -/
theorem c5_personalizer_contract (s : String) (data : JsVal)
    (hev : getField data "Event" = none) :
    personalizeText (.str s) data = personalizeSpec (.str s) data := by
  show (if s = "" then JsVal.str s
      else JsVal.str (String.mk (replaceScan
        (fun f => extractStr (fakeBindingChars (trimChars f)) data) s.data)))
    = (if s = "" then JsVal.str s
      else JsVal.str (String.mk (replaceScan
        (fun f => searchInObject data
          (String.mk ((splitOnChar '.' (trimChars f)).getLastD []))) s.data)))
  by_cases hs : s = ""
  · rw [if_pos hs, if_pos hs]
  · rw [if_neg hs, if_neg hs]
    have hpoint : ∀ f, extractStr (fakeBindingChars (trimChars f)) data
        = searchInObject data (String.mk ((splitOnChar '.' (trimChars f)).getLastD [])) :=
      fun f => extract_fake_binding data hev (trimChars f)
    rw [replaceScan_congr _ _ hpoint s.data.length s.data (Nat.le_refl _)]

/-- Witness for `c5_personalizer_contract`: `"Hi %%Phone%%"` over the
`Event`-less payload `{Phone: "+34"}`. -/
theorem c5_personalizer_contract_witness :
    personalizeText (.str "Hi %%Phone%%") (.obj [("Phone", .str "+34")])
      = personalizeSpec (.str "Hi %%Phone%%") (.obj [("Phone", .str "+34")]) :=
  c5_personalizer_contract "Hi %%Phone%%" (.obj [("Phone", .str "+34")])
    (by simp [getField, lookupField])
